import Mathlib

/-!
Shallow embedding of the markup-to-docx compiler of `src/utils/settings.ts`
(the current `docxExport` variant: `parseInlineStyles`, `fetchImageBuffer`,
and the line-scanning loop of `downloadDocx`), together with theorems that
settle the specification claims against it.

Strings are modelled as Lean `String`s (lists of characters).  The JavaScript
string primitives used by the source (`trim`, `startsWith`, `split`,
`includes`, the specific regular expressions appearing in the source) are
hand-translated into recursive functions over `List Char`; each translation
states in its doc comment the exact JS construct it models.  Input lines never
contain a newline character (they are produced by `split('\n')`), so the
regex `.` matches every character of a line.
-/

/-- The backtick character (code point 96), named so that the character
itself only ever appears inside string literals. -/
def btChar : Char := Char.ofNat 96

/-- Whitespace as trimmed by JS `String.prototype.trim` / matched by `\s`,
restricted to the ASCII whitespace characters that can occur in this
pipeline's input (space, tab, CR, LF). -/
def isWS (c : Char) : Bool := c = ' ' || c = '\t' || c = '\r' || c = '\n'

/-- JS `s.trim()` on the character list. -/
def trimChars (l : List Char) : List Char :=
  ((l.dropWhile isWS).reverse.dropWhile isWS).reverse

/-- JS `s.trim()`. -/
def jsTrim (s : String) : String := ⟨trimChars s.data⟩

/-- JS `s.startsWith(p)`. -/
def jsStartsWith (p s : String) : Bool := p.data.isPrefixOf s.data

/-- Index of the first occurrence of `pat` in `s` (`s.indexOf(pat)` in JS,
`none` when absent).  This is the primitive used to model the lazy
(`.*?`) regex searches of the source. -/
def findSub (pat : List Char) : List Char → Option Nat
  | [] => if pat.isEmpty then some 0 else none
  | c :: rest =>
    if pat.isPrefixOf (c :: rest) then some 0
    else (findSub pat rest).map (· + 1)

/-- JS `s.includes(pat)`. -/
def containsSub (pat s : List Char) : Bool := (findSub pat s).isSome

/-- JS `s.split(sep)` for a single-character separator. -/
def splitOnChar (sep : Char) : List Char → List (List Char)
  | [] => [[]]
  | c :: rest =>
    if c = sep then [] :: splitOnChar sep rest
    else
      match splitOnChar sep rest with
      | h :: t => (c :: h) :: t
      | [] => [[c]]

/-- JS `s.split(sep)` for a non-empty string separator, fuelled; each step
consumes at least one character, so fuel `s.length + 1` is exact. -/
def splitAllF (sep : List Char) : Nat → List Char → List (List Char)
  | 0, s => [s]
  | n + 1, s =>
    match findSub sep s with
    | some i => s.take i :: splitAllF sep n (s.drop (i + sep.length))
    | none => [s]

/-- JS `s.split(sep)` for the non-empty separators used by the source. -/
def splitAll (sep s : List Char) : List (List Char) :=
  splitAllF sep (s.length + 1) s

/-- A math span extracted by the first pass of `parseInlineStyles`
(`mathPlaceholders` entries: `{ placeholder, content, isDisplay }`). -/
structure MathPh where
  placeholder : List Char
  content : String
  isDisplay : Bool
deriving DecidableEq, Repr

/-- The placeholder text `__MATH_DISPLAY_${k}__` / `__MATH_INLINE_${k}__`. -/
def phChars (isDisplay : Bool) (k : Nat) : List Char :=
  "__MATH_".data ++ (if isDisplay then "DISPLAY".data else "INLINE".data)
    ++ "_".data ++ (Nat.repr k).data ++ "__".data

/-- The `$$`/`$` delimiter of a math span. -/
def mathDelim (isDisplay : Bool) : List Char :=
  if isDisplay then ['$', '$'] else ['$']

/-- One global-replace pass of `processedText.replace(displayMathRegex, ...)`
resp. `...(inlineMathRegex, ...)` where the regexes are `/\$\$(.+?)\$\$/g`
and `/\$(.+?)\$/g`.  At each position: if the delimiter starts here and
closes again after at least one character (lazily, i.e. at the first later
occurrence), the span is replaced by a placeholder and scanning resumes
after the span, threading the shared `placeholderIndex` counter; otherwise
the scan advances one character.  Each step consumes at least one
character, so fuel `s.length` is exact. -/
def replaceMathF (isDisplay : Bool) : Nat → Nat → List Char →
    List Char × List MathPh × Nat
  | _, k, [] => ([], [], k)
  | 0, k, s => (s, [], k)
  | n + 1, k, c :: rest =>
    let d := mathDelim isDisplay
    let s := c :: rest
    if d.isPrefixOf s then
      match findSub d ((s.drop d.length).drop 1) with
      | some j =>
        let content := (s.drop d.length).take (j + 1)
        let rest2 := (s.drop d.length).drop (j + 1 + d.length)
        let r := replaceMathF isDisplay n (k + 1) rest2
        (phChars isDisplay k ++ r.1,
         ⟨phChars isDisplay k, jsTrim ⟨content⟩, isDisplay⟩ :: r.2.1,
         r.2.2)
      | none =>
        let r := replaceMathF isDisplay n k rest
        (c :: r.1, r.2.1, r.2.2)
    else
      let r := replaceMathF isDisplay n k rest
      (c :: r.1, r.2.1, r.2.2)

/-- The two math-extraction passes of `parseInlineStyles`: display math
first, then inline math over its output, placeholders recorded in push
order with a shared counter. -/
def mathPasses (text : List Char) : List Char × List MathPh :=
  let d := replaceMathF true text.length 0 text
  let i := replaceMathF false d.1.length d.2.2 d.1
  (i.1, d.2.1 ++ i.2.1)

/-- The delimiter alternatives of `/(\*\*\*?|__?|`)(.*?)\1/g` that can open
at a position whose text starts as given, in the order the regex engine
tries them: `\*\*\*?` prefers `***` over `**` (and cannot match a single
`*`), `__?` prefers `__` over `_`, then the backtick. -/
def delimsAt (s : List Char) : List (List Char) :=
  match s with
  | [] => []
  | c :: rest =>
    if c = '*' then
      match rest with
      | [] => []
      | c2 :: rest2 =>
        if c2 = '*' then
          match rest2 with
          | [] => [['*', '*']]
          | c3 :: _ =>
            if c3 = '*' then [['*', '*', '*'], ['*', '*']] else [['*', '*']]
        else []
    else if c = '_' then
      match rest with
      | [] => [['_']]
      | c2 :: _ => if c2 = '_' then [['_', '_'], ['_']] else [['_']]
    else if c = btChar then [[btChar]]
    else []

/-- Try the delimiter candidates in order at the current position: delimiter
`d` matches when `d` occurs again later in the line (lazy `(.*?)\1`: the
content runs to the first such occurrence).  Returns the delimiter, the
content, and the remainder of the line after the closing delimiter. -/
def tryDelims (s : List Char) : List (List Char) →
    Option (List Char × List Char × List Char)
  | [] => none
  | d :: ds =>
    match findSub d (s.drop d.length) with
    | some j =>
      some (d, (s.drop d.length).take j, s.drop (d.length + j + d.length))
    | none => tryDelims s ds

/-- One `combinedRegex.exec` search: the earliest position at which some
delimiter pair matches; returns the plain text before the match, the
delimiter, the content between the pair, and the rest of the line. -/
def emphFind : List Char → Option (List Char × List Char × List Char × List Char)
  | [] => none
  | c :: rest =>
    match tryDelims (c :: rest) (delimsAt (c :: rest)) with
    | some (d, content, r) => some ([], d, content, r)
    | none => (emphFind rest).map (fun x => (c :: x.1, x.2.1, x.2.2.1, x.2.2.2))

/-- A `segments` entry of `parseInlineStyles`: `{ text, style? }`. -/
structure Seg where
  text : List Char
  style : Option (List Char)
deriving DecidableEq, Repr

/-- The `while ((match = combinedRegex.exec(...)))` loop building `segments`:
plain text between matches is pushed only when non-empty, each match pushes
its content with its delimiter as style, and a non-empty tail is pushed
plain.  Each match consumes at least two characters and one unit of fuel,
so fuel `s.length` is exact. -/
def emphSegsF : Nat → List Char → List Seg
  | _, [] => []
  | 0, s => [⟨s, none⟩]
  | n + 1, s =>
    match emphFind s with
    | none => [⟨s, none⟩]
    | some (p, d, c, r) =>
      (if p.isEmpty then [] else [⟨p, none⟩]) ++ ⟨c, some d⟩ :: emphSegsF n r

/-- The emphasis segmentation of `parseInlineStyles`. -/
def emphSegs (s : List Char) : List Seg := emphSegsF s.length s

/-- A run produced by `parseInlineStyles`: either a `TextRun` option object
(text, font, half-point size, bold, italics, color, code shading) or a
`DocxMath` node wrapping a `MathRun`. -/
inductive InlineRun where
  | tr (text font : String) (size : ℚ) (bold italics : Bool)
       (color : String) (shaded : Bool)
  | math (content : String)
deriving DecidableEq, Repr

/-- The per-segment run construction of `parseInlineStyles`: the first
recorded placeholder contained in the segment text wins and splits the
segment around its first two parts (`parts[0]` / `parts[1]`, each emitted
only when non-empty, the math content as a `DocxMath`); otherwise the
segment's delimiter selects the style. -/
def segToRuns (font : String) (fontSize : ℚ) (color : String)
    (phs : List MathPh) (seg : Seg) : List InlineRun :=
  match phs.find? (fun m => containsSub m.placeholder seg.text) with
  | some m =>
    let parts := splitAll m.placeholder seg.text
    let p0 := parts.getD 0 []
    (if p0.isEmpty then [] else
      [InlineRun.tr ⟨p0⟩ font (fontSize * 2) false false color false])
    ++ [InlineRun.math m.content]
    ++ (match parts.get? 1 with
        | some p1 =>
          if p1.isEmpty then [] else
            [InlineRun.tr ⟨p1⟩ font (fontSize * 2) false false color false]
        | none => [])
  | none =>
    match seg.style with
    | some st =>
      if st = ['*', '*', '*'] then
        [InlineRun.tr ⟨seg.text⟩ font (fontSize * 2) true true color false]
      else if st = ['*', '*'] || st = ['_', '_'] then
        [InlineRun.tr ⟨seg.text⟩ font (fontSize * 2) true false color false]
      else if st = ['*'] || st = ['_'] then
        [InlineRun.tr ⟨seg.text⟩ font (fontSize * 2) false true color false]
      else if st = [btChar] then
        [InlineRun.tr ⟨seg.text⟩ "JetBrains Mono" ((fontSize - 1) * 2)
          false false "E11D48" true]
      else
        [InlineRun.tr ⟨seg.text⟩ font (fontSize * 2) false false color false]
    | none =>
      [InlineRun.tr ⟨seg.text⟩ font (fontSize * 2) false false color false]

/-- `parseInlineStyles(text, font, fontSize, color)` of the current
`docxExport` variant (`src/utils/settings.ts`): extract `$$...$$` then
`$...$` spans into placeholders, segment by the emphasis/code regex
`/(\*\*\*?|__?|`)(.*?)\1/g`, then map each segment to runs. -/
def parseInlineStyles (text font : String) (fontSize : ℚ) (color : String) :
    List InlineRun :=
  let mp := mathPasses text.data
  ((emphSegs mp.1).map (segToRuns font fontSize color mp.2)).flatten

/-- JS `row.replace(/^\||\|$/g, '')`: drop one leading and one trailing
pipe character. -/
def stripPipes (l : List Char) : List Char :=
  let l1 := if l.head? = some '|' then l.tail else l
  if l1.getLast? = some '|' then l1.dropLast else l1

/-- Whether a trimmed cell matches `/^-+$/` (at least one character, all
dashes); the separator-row filter of the table branch of `downloadDocx`. -/
def allDashCell (cell : List Char) : Bool := !cell.isEmpty && cell.all (· = '-')

/-- One table row as cell strings: strip boundary pipes, split on every
pipe, trim each cell (the `rows` mapping in the table branch of
`downloadDocx`). -/
def splitRowCells (row : String) : List String :=
  (splitOnChar '|' (stripPipes row.data)).map (fun c => (⟨trimChars c⟩ : String))

/-- The table normalization of `downloadDocx`: split every accumulated line
into cells, then drop each row all of whose cells are entirely dashes
(the `.filter(row => !row.every(cell => cell.match(/^-+$/)))`). -/
def normalizeTable (tableLines : List String) : List (List String) :=
  (tableLines.map splitRowCells).filter
    (fun row => !(row.all (fun cell => allDashCell cell.data)))

/-- A resolved image: raw bytes plus natural pixel dimensions, the successful
result shape of `fetchImageBuffer`. -/
structure ResolvedImage where
  data : List Nat
  width : Nat
  height : Nat
deriving DecidableEq, Repr

/-- The outcome of the network interaction performed by `fetchImageBuffer`
for one reference: either the `fetch` / `blob()` / `arrayBuffer()` chain
raised (`fetchThrow`, caught by the surrounding `try`), or a response
arrived with its `ok` flag and either decoded bytes or a decode failure
(`decode = none`, also caught by the `try`). -/
inductive FetchStep where
  | fetchThrow
  | resp (ok : Bool) (decode : Option (List Nat))
deriving DecidableEq, Repr

/-- `fetchImageBuffer(url)` of `src/utils/settings.ts`, with the I/O
abstracted into its observable outcome: `isDataUrl` tells whether `url`
starts with `data:image` (that branch performs no `response.ok` check);
`probe` is the dimension probe's result (`none` models `img.onerror`,
which substitutes the fixed 600x400 fallback).  Every raised error is
caught and turned into `none`; the function never throws to its caller. -/
def fetchImageBuffer (isDataUrl : Bool) (step : FetchStep)
    (probe : Option (Nat × Nat)) : Option ResolvedImage :=
  match step with
  | .fetchThrow => none
  | .resp ok decode =>
    if !isDataUrl && !ok then none
    else
      match decode with
      | none => none
      | some bytes =>
        let dims := probe.getD (600, 400)
        some ⟨bytes, dims.1, dims.2⟩

/-- JS `Math.round` on a non-negative rational (round half up). -/
def jsRound (q : ℚ) : ℤ := ⌊q + 1 / 2⌋

/-- The display-size computation of the image branch of `downloadDocx`:
`MAX_WIDTH = 600`; when the natural width exceeds it, the width becomes
600 and the height is scaled by `ratio = MAX_WIDTH / width` and rounded;
otherwise the natural size is kept. -/
def displaySize (w h : Nat) : Nat × Nat :=
  if 600 < w then (600, (jsRound ((h : ℚ) * (600 / (w : ℚ)))).toNat)
  else (w, h)

/-- The match `line.match(/^!\[(.*?)\]\((.*?)\)/)` of the image branch:
alt text up to the first `](`, reference up to the following first `)`. -/
def matchImage (line : String) : Option (String × String) :=
  if "![".data.isPrefixOf line.data then
    let rest := line.data.drop 2
    match findSub "](".data rest with
    | some j =>
      let rest2 := rest.drop (j + 2)
      match findSub ")".data rest2 with
      | some k => some (⟨rest.take j⟩, ⟨rest2.take k⟩)
      | none => none
    | none => none
  else none

/-- A block produced by the scanning loop of `downloadDocx`, prior to its
styling into `docx` paragraph/table objects: heading with its raw level
and inline runs, a successfully resolved image (alt text, bytes, final
display size), the visible failure placeholder paragraph
`[Image: alt - Download Failed]`, a code block of raw lines, a table of
cell strings, or an ordinary paragraph. -/
inductive Block where
  | heading (level : Nat) (runs : List InlineRun)
  | image (alt : String) (data : List Nat) (width height : Nat)
  | imageFailed (alt : String)
  | code (lines : List String)
  | table (rows : List (List String))
  | para (runs : List InlineRun)
deriving DecidableEq, Repr

/-- The block emitted for an image line once its reference is resolved:
on success an image block at the computed display size, on `null` the
failure placeholder carrying the alt text. -/
def imageBlockOf (alt : String) (res : Option ResolvedImage) : Block :=
  match res with
  | some img =>
    Block.image alt img.data (displaySize img.width img.height).1
      (displaySize img.width img.height).2
  | none => Block.imageFailed alt

/-- The word templates of `WordTemplate` (declared in `src/types.ts`, used
by `downloadDocx`). -/
inductive WordTemplate where
  | standard
  | academic
  | note
  | custom
deriving DecidableEq, Repr

/-- The style configuration `DocumentStyle` (declared in `src/types.ts`;
field shapes read off `DEFAULT_STYLES` and the uses in `downloadDocx`). -/
structure DocumentStyle where
  fontFace : String
  fontSize : ℚ
  lineSpacing : ℚ
  headingColor : String
  textColor : String
  alignment : String
  paragraphSpacing : ℚ
deriving DecidableEq, Repr

/-- `DEFAULT_STYLES[WordTemplate.STANDARD]`. -/
def stdStyle : DocumentStyle :=
  ⟨"SimSun", 12, 6 / 5, "000000", "000000", "justify", 200⟩

/-- `DEFAULT_STYLES[WordTemplate.ACADEMIC]`. -/
def academicStyle : DocumentStyle :=
  ⟨"Times New Roman", 21 / 2, 3 / 2, "000000", "000000", "justify", 100⟩

/-- `DEFAULT_STYLES[WordTemplate.NOTE]`. -/
def noteStyle : DocumentStyle :=
  ⟨"Microsoft YaHei", 11, 3 / 2, "2563EB", "374151", "left", 300⟩

/-- The style resolution of `downloadDocx`:
`(template === CUSTOM && customStyle) ? customStyle :
(DEFAULT_STYLES[template] || DEFAULT_STYLES[STANDARD])`. -/
def resolveStyle : WordTemplate → Option DocumentStyle → DocumentStyle
  | .custom, some s => s
  | .custom, none => stdStyle
  | .standard, _ => stdStyle
  | .academic, _ => academicStyle
  | .note, _ => noteStyle

/-- The heading level `line.match(/^#+/)[0].length`. -/
def hashCount (s : String) : Nat := (s.data.takeWhile (· = '#')).length

/-- The heading text `line.replace(/^#+\s*/, '')`. -/
def headContent (s : String) : String :=
  ⟨(s.data.dropWhile (· = '#')).dropWhile isWS⟩

/-- Prepend the table block only when normalization produced at least one
row (`if (rows.length > 0)`). -/
def tableCons (rows : List (List String)) (bs : List Block) : List Block :=
  if rows.isEmpty then bs else Block.table rows :: bs

/-- The `while (i < lines.length)` scanning loop of `downloadDocx`
(current `docxExport` variant), producing the blocks in document order
together with the list of image references passed to `fetchImageBuffer`,
in the order they are awaited.  `r` abstracts `await fetchImageBuffer`
as a fixed per-reference result.  Branches, in source order: heading
(`#`), image line, code fence, table run, non-empty paragraph, skipped
blank line.  Each iteration consumes at least one input line and one
unit of fuel, so fuel `lines.length` is exact. -/
def scanT (st : DocumentStyle) (r : String → Option ResolvedImage) :
    Nat → List String → List Block × List String
  | _, [] => ([], [])
  | 0, _ :: _ => ([], [])
  | n + 1, l :: ls =>
    if jsStartsWith "#" (jsTrim l) then
      (Block.heading (hashCount (jsTrim l))
        (parseInlineStyles (headContent (jsTrim l)) st.fontFace
          (st.fontSize + ((4 : ℚ) - (hashCount (jsTrim l) : ℚ)) * 2)
          st.headingColor) :: (scanT st r n ls).1,
       (scanT st r n ls).2)
    else
      match matchImage (jsTrim l) with
      | some au =>
        (imageBlockOf au.1 (r au.2) :: (scanT st r n ls).1,
         au.2 :: (scanT st r n ls).2)
      | none =>
        if jsStartsWith "```" (jsTrim l) then
          (Block.code (ls.takeWhile (fun x => !jsStartsWith "```" (jsTrim x)))
             :: (scanT st r n
                  ((ls.dropWhile (fun x => !jsStartsWith "```" (jsTrim x))).drop 1)).1,
           (scanT st r n
             ((ls.dropWhile (fun x => !jsStartsWith "```" (jsTrim x))).drop 1)).2)
        else if jsStartsWith "|" (jsTrim l) then
          (tableCons
             (normalizeTable (jsTrim l ::
               (ls.takeWhile (fun x => jsStartsWith "|" (jsTrim x))).map jsTrim))
             (scanT st r n (ls.dropWhile (fun x => jsStartsWith "|" (jsTrim x)))).1,
           (scanT st r n (ls.dropWhile (fun x => jsStartsWith "|" (jsTrim x)))).2)
        else if jsTrim l ≠ "" then
          (Block.para (parseInlineStyles (jsTrim l) st.fontFace st.fontSize
             st.textColor) :: (scanT st r n ls).1,
           (scanT st r n ls).2)
        else
          scanT st r n ls

/-- The block list produced by one conversion run of `downloadDocx` on the
given raw lines. -/
def scanBlocks (st : DocumentStyle) (r : String → Option ResolvedImage)
    (ls : List String) : List Block :=
  (scanT st r ls.length ls).1

/-- JS `markdown.split('\n')`. -/
def splitLines (s : String) : List String :=
  (splitOnChar '\n' s.data).map (fun l => (⟨l⟩ : String))

/-- The in-scope part of `downloadDocx(markdown, template, customStyle)`:
resolve the style, split the input into lines, and run the scanner;
the resulting blocks are what the external `docx` serializer receives. -/
def downloadDocxBlocks (markdown : String) (template : WordTemplate)
    (customStyle : Option DocumentStyle)
    (r : String → Option ResolvedImage) : List Block :=
  scanBlocks (resolveStyle template customStyle) r (splitLines markdown)

/-- Claim C1: the spec requires that tokenizing `"$a_b$ is *legal*"` yield a
math run `a_b`, a plain run `" is "`, and an italic run `"legal"`.  The code
does not satisfy this: the inline-math placeholder `__MATH_INLINE_0__` is
itself parsed as a `__`-delimited bold span by the emphasis regex, so the
math content is destroyed and the internal placeholder name leaks into the
output as a bold run, while `*legal*` stays literal (the delimiter regex
`(\*\*\*?|__?|`)` cannot match a single asterisk, although the style
dispatch has a dead branch for it).  This theorem evaluates the embedded
`parseInlineStyles` at the failing input. -/
theorem c1_math_precedence_code_eval (f : String) (sz : ℚ) (c : String) :
    parseInlineStyles "$a_b$ is *legal*" f sz c =
      [InlineRun.tr "MATH_INLINE_0" f (sz * 2) true false c false,
       InlineRun.tr " is *legal*" f (sz * 2) false false c false] := rfl

/-- Claim C2, counterexample: on the rows `"| a | b |"`, `"|---|---|"`,
`"| 1 |"` the claim asserts a rectangular matrix with the short row padded
to 2 columns; the code pads nothing, so not every produced row has 2
cells. -/
theorem c2_table_padding_counterexample :
    ¬ (∀ row ∈ normalizeTable ["| a | b |", "|---|---|", "| 1 |"],
        row.length = 2) := by
  decide

/-- Claim C2, amended: the produced cell matrix is not padded — each
surviving row keeps the cell count of its own source line; on the example
rows the output has exactly 2 rows, the separator row is absent, and the
short row remains at 1 column. -/
theorem c2_table_rows_unpadded :
    normalizeTable ["| a | b |", "|---|---|", "| 1 |"] = [["a", "b"], ["1"]]
      ∧ ((normalizeTable ["| a | b |", "|---|---|", "| 1 |"]).map
          List.length) = [2, 1] := by
  constructor <;> rfl

/-- Claim C7, counterexample: the claim says an empty delimiter pair (`**`
immediately followed by `**`) produces no run; the code pushes the matched
segment unconditionally, so the line `"****"` produces one run (with empty
text and bold styling) rather than none. -/
theorem c7_empty_pair_counterexample :
    parseInlineStyles "****" "F" 12 "000000" =
        [InlineRun.tr "" "F" (12 * 2) true false "000000" false]
      ∧ (parseInlineStyles "****" "F" 12 "000000").length ≠ 0 := by
  constructor
  · rfl
  · decide

/-- Claim C7, amended: an empty delimiter pair produces exactly one run,
with empty text and the pair's emphasis, and leaves the surrounding text
unaffected (`"a****b"` yields plain `"a"`, an empty bold run, plain
`"b"`). -/
theorem c7_empty_pair_empty_run (f : String) (sz : ℚ) (c : String) :
    parseInlineStyles "****" f sz c =
        [InlineRun.tr "" f (sz * 2) true false c false]
      ∧ parseInlineStyles "a****b" f sz c =
        [InlineRun.tr "a" f (sz * 2) false false c false,
         InlineRun.tr "" f (sz * 2) true false c false,
         InlineRun.tr "b" f (sz * 2) false false c false] :=
  ⟨rfl, rfl⟩

/-- Claim C8: the spec requires every GFM alignment-separator row —
including colon-bearing forms such as `|:---:|---|` — to be discarded.
The code's filter only drops rows whose every cell matches `/^-+$/`
(dashes only); a colon-bearing separator row survives and is rendered as
a data row.  This theorem evaluates the embedded normalizer at the
failing input: the `:---:` row appears in the output. -/
theorem c8_colon_separator_row_kept_eval :
    normalizeTable ["| a | b |", "|:---:|---|", "| 1 | 2 |"] =
      [["a", "b"], [":---:", "---"], ["1", "2"]] := rfl

/-- Claim C5: a resolved image whose natural width is at most 600 keeps its
natural dimensions; one whose natural width exceeds 600 is emitted at
width 600 with the height scaled by `600 / naturalWidth` and rounded —
the displayed height differs from the exact scaled height by at most one
half, so the aspect ratio is preserved up to integer rounding. -/
theorem c5_display_sizing (w h : Nat) :
    (w ≤ 600 → displaySize w h = (w, h)) ∧
    (600 < w →
      (displaySize w h).1 = 600 ∧
      (displaySize w h).2 = (jsRound ((h : ℚ) * (600 / (w : ℚ)))).toNat ∧
      |((displaySize w h).2 : ℚ) - (h : ℚ) * (600 / (w : ℚ))| ≤ 1 / 2) := by
  constructor
  · intro hle
    simp [displaySize, Nat.not_lt.mpr hle]
  · intro hw
    have h1 : (displaySize w h).1 = 600 := by simp [displaySize, hw]
    have h2 : (displaySize w h).2 = (jsRound ((h : ℚ) * (600 / (w : ℚ)))).toNat := by
      simp [displaySize, hw]
    refine ⟨h1, h2, ?_⟩
    have hq0 : (0 : ℚ) ≤ (h : ℚ) * (600 / (w : ℚ)) := by positivity
    have hfl : (0 : ℤ) ≤ jsRound ((h : ℚ) * (600 / (w : ℚ))) := by
      rw [jsRound, Int.floor_nonneg]
      linarith
    have hcast : (((jsRound ((h : ℚ) * (600 / (w : ℚ)))).toNat : ℚ)) =
        ((jsRound ((h : ℚ) * (600 / (w : ℚ))) : ℤ) : ℚ) := by
      exact_mod_cast congrArg (fun z : ℤ => (z : ℚ)) (Int.toNat_of_nonneg hfl)
    rw [h2, hcast]
    have hle2 : ((jsRound ((h : ℚ) * (600 / (w : ℚ))) : ℤ) : ℚ) ≤
        (h : ℚ) * (600 / (w : ℚ)) + 1 / 2 := Int.floor_le _
    have hgt : (h : ℚ) * (600 / (w : ℚ)) + 1 / 2 <
        ((jsRound ((h : ℚ) * (600 / (w : ℚ))) : ℤ) : ℚ) + 1 :=
      Int.lt_floor_add_one _
    rw [abs_le]
    constructor <;> linarith

/-- Witness for C5 at concrete sizes: a 400x300 image is kept, a 1200x800
image is clamped to width 600. -/
theorem c5_witness :
    displaySize 400 300 = (400, 300) ∧ (displaySize 1200 800).1 = 600 :=
  ⟨(c5_display_sizing 400 300).1 (by norm_num),
   ((c5_display_sizing 1200 800).2 (by norm_num)).1⟩

/-- A list is a prefix of itself followed by anything (Bool form). -/
lemma isPrefixOf_append_self (l t : List Char) : l.isPrefixOf (l ++ t) = true := by
  induction l with
  | nil => simp [List.isPrefixOf]
  | cons a l ih => simp [List.isPrefixOf, ih]

/-- If a string starts with `p` and `p` starts with `c`, the string starts
with `c`. -/
lemma jsStartsWith_head {p s : String} {c : Char} {ps : List Char}
    (hp : p.data = c :: ps) (h : jsStartsWith p s = true) :
    ∃ t, s.data = c :: t := by
  unfold jsStartsWith at h
  rw [hp] at h
  cases hs : s.data with
  | nil => rw [hs] at h; simp [List.isPrefixOf] at h
  | cons b bs =>
    rw [hs] at h
    simp only [List.isPrefixOf, Bool.and_eq_true, beq_iff_eq] at h
    exact ⟨bs, by rw [h.1]⟩

/-- A single-character-headed search string cannot be a prefix of a string
beginning with a different character. -/
lemma jsStartsWith_ne_head {p s : String} {b c : Char} {ps t : List Char}
    (hp : p.data = b :: ps) (hs : s.data = c :: t) (hne : b ≠ c) :
    jsStartsWith p s = false := by
  simp [jsStartsWith, hp, hs, List.isPrefixOf, hne]

/-- A line that does not start with `![` is not an image line. -/
lemma matchImage_none_of_head {s : String} {c : Char} {t : List Char}
    (hs : s.data = c :: t) (hne : c ≠ '!') :
    matchImage s = none := by
  have hd : "![".data = '!' :: ['['] := rfl
  have hb : ('!' == c) = false := beq_eq_false_iff_ne.mpr (fun e => hne e.symm)
  have hcond : ("![".data.isPrefixOf s.data) = false := by
    rw [hd, hs]
    simp [List.isPrefixOf, hb]
  simp [matchImage, hcond]

/-- An image line starts with `!`. -/
lemma matchImage_head {s : String} {au : String × String}
    (h : matchImage s = some au) : ∃ t, s.data = '!' :: t := by
  by_cases hp : ("![".data.isPrefixOf s.data) = true
  · cases hs : s.data with
    | nil => rw [hs] at hp; simp [List.isPrefixOf] at hp
    | cons b bs =>
      rw [hs] at hp
      have hd : "![".data = '!' :: ['['] := rfl
      rw [hd] at hp
      simp only [List.isPrefixOf, Bool.and_eq_true, beq_iff_eq] at hp
      exact ⟨bs, by rw [hp.1]⟩
  · unfold matchImage at h
    rw [if_neg hp] at h
    simp at h

/-- A scanned heading line starts with `#`; an image line cannot. -/
lemma hash_false_of_image {s : String} {au : String × String}
    (h : matchImage s = some au) : jsStartsWith "#" s = false := by
  obtain ⟨t, ht⟩ := matchImage_head h
  exact jsStartsWith_ne_head rfl ht (by decide)

/-- If every element satisfies the predicate, `takeWhile` keeps the whole
list. -/
lemma takeWhile_eq_self_of_all {α : Type} (p : α → Bool) (l : List α)
    (h : ∀ x ∈ l, p x = true) : l.takeWhile p = l := by
  induction l with
  | nil => rfl
  | cons a l ih =>
    simp only [List.takeWhile, h a (List.mem_cons_self a l)]
    rw [ih (fun x hx => h x (List.mem_cons_of_mem a hx))]

/-- If every element satisfies the predicate, `dropWhile` drops the whole
list. -/
lemma dropWhile_eq_nil_of_all {α : Type} (p : α → Bool) (l : List α)
    (h : ∀ x ∈ l, p x = true) : l.dropWhile p = [] := by
  induction l with
  | nil => rfl
  | cons a l ih =>
    simp only [List.dropWhile, h a (List.mem_cons_self a l)]
    exact ih (fun x hx => h x (List.mem_cons_of_mem a hx))

/-- Claim C4: when the input ends while a code fence is still open, the
accumulated lines are still flushed: scanning an opening fence line
followed by lines none of which closes the fence yields exactly one code
block holding all those lines, in their original order. -/
theorem c4_unterminated_fence_flush (st : DocumentStyle)
    (r : String → Option ResolvedImage) (opening : String) (rest : List String)
    (hop : jsStartsWith "```" (jsTrim opening) = true)
    (hrest : ∀ l ∈ rest, jsStartsWith "```" (jsTrim l) = false) :
    scanBlocks st r (opening :: rest) = [Block.code rest] := by
  obtain ⟨t, ht⟩ := @jsStartsWith_head "```" (jsTrim opening) btChar
    [btChar, btChar] (by decide) hop
  have hhash : jsStartsWith "#" (jsTrim opening) = false :=
    jsStartsWith_ne_head rfl ht (by decide)
  have him : matchImage (jsTrim opening) = none :=
    matchImage_none_of_head ht (by decide)
  have htake : rest.takeWhile (fun x => !jsStartsWith "```" (jsTrim x)) = rest :=
    takeWhile_eq_self_of_all _ rest (fun x hx => by rw [hrest x hx]; rfl)
  have hdrop : rest.dropWhile (fun x => !jsStartsWith "```" (jsTrim x)) = [] :=
    dropWhile_eq_nil_of_all _ rest (fun x hx => by rw [hrest x hx]; rfl)
  unfold scanBlocks
  rw [List.length_cons]
  simp [scanT, hhash, him, hop, htake, hdrop]

/-- Witness for C4: a fence opened by ```` ``` ```` over two further lines
and never closed still yields the single code block of those lines. -/
theorem c4_witness :
    scanBlocks stdStyle (fun _ => none) ["```", "a", "b"] =
      [Block.code ["a", "b"]] :=
  c4_unterminated_fence_flush stdStyle (fun _ => none) "```" ["a", "b"]
    (by decide) (by decide)

/-- One scanner step on an image line: the resolver is consulted once with
the reference, the resulting block is prepended, and the reference is
recorded in the fetch schedule. -/
lemma scanT_cons_image (st : DocumentStyle) (r : String → Option ResolvedImage)
    (n : Nat) (l : String) (ls : List String) (alt url : String)
    (him : matchImage (jsTrim l) = some (alt, url)) :
    scanT st r (n + 1) (l :: ls) =
      (imageBlockOf alt (r url) :: (scanT st r n ls).1,
       url :: (scanT st r n ls).2) := by
  have hhash : jsStartsWith "#" (jsTrim l) = false := hash_false_of_image him
  simp [scanT, hhash, him]

/-- One conversion step on an image line, at the block-list level. -/
lemma scanBlocks_cons_image (st : DocumentStyle)
    (r : String → Option ResolvedImage) (l : String) (ls : List String)
    (alt url : String) (him : matchImage (jsTrim l) = some (alt, url)) :
    scanBlocks st r (l :: ls) =
      imageBlockOf alt (r url) :: scanBlocks st r ls := by
  unfold scanBlocks
  rw [List.length_cons, scanT_cons_image st r ls.length l ls alt url him]

/-- Claim C3: every failing image acquisition — the fetch/decode chain
raising (caught by the `try`), a non-success HTTP status on the remote
path, or a decode failure — makes `fetchImageBuffer` return `none` rather
than raising (in this embedding `fetchImageBuffer` is a total
`Option`-valued function, so non-raising is by construction); and when the
resolver returns `none` for an image line, the scanner emits the visible
`[Image: alt - Download Failed]` placeholder block carrying the original
alt text and continues with the rest of the input. -/
theorem c3_image_failure_never_raises :
    (∀ (b : Bool) (probe : Option (Nat × Nat)),
      fetchImageBuffer b FetchStep.fetchThrow probe = none) ∧
    (∀ (b ok : Bool) (probe : Option (Nat × Nat)),
      fetchImageBuffer b (FetchStep.resp ok none) probe = none) ∧
    (∀ (bytes : List Nat) (probe : Option (Nat × Nat)),
      fetchImageBuffer false (FetchStep.resp false (some bytes)) probe = none) ∧
    (∀ (st : DocumentStyle) (r : String → Option ResolvedImage)
       (l : String) (ls : List String) (alt url : String),
      matchImage (jsTrim l) = some (alt, url) → r url = none →
      scanBlocks st r (l :: ls) = Block.imageFailed alt :: scanBlocks st r ls) := by
  refine ⟨fun b probe => rfl, fun b ok probe => ?_, fun bytes probe => rfl, ?_⟩
  · cases b <;> cases ok <;> rfl
  · intro st r l ls alt url him hr
    rw [scanBlocks_cons_image st r l ls alt url him, hr]
    rfl

/-- Witness for C3: a throwing fetch resolves to `none`, and scanning a
single image line whose resolver fails yields the placeholder block. -/
theorem c3_witness :
    fetchImageBuffer true FetchStep.fetchThrow none = none ∧
    scanBlocks stdStyle (fun _ => none) ["![alt](http://x)"] =
      Block.imageFailed "alt" :: scanBlocks stdStyle (fun _ => none) [] :=
  ⟨c3_image_failure_never_raises.1 true none,
   c3_image_failure_never_raises.2.2.2 stdStyle (fun _ => none)
     "![alt](http://x)" [] "alt" "http://x" (by decide) rfl⟩

/-- First-occurrence search finds the pattern exactly at the boundary when
the pattern's first character does not occur earlier. -/
lemma findSub_boundary (c : Char) (cs pre rest : List Char) (h : c ∉ pre)
    (hrest : (c :: cs).isPrefixOf rest = true) :
    findSub (c :: cs) (pre ++ rest) = some pre.length := by
  induction pre with
  | nil =>
    cases rest with
    | nil => simp [List.isPrefixOf] at hrest
    | cons b bs => simp only [List.nil_append, findSub, hrest, if_true, List.length_nil]
  | cons a pre ih =>
    have hca : (c == a) = false :=
      beq_eq_false_iff_ne.mpr (fun e => h (e ▸ List.mem_cons_self a pre))
    have hpre : ((c :: cs).isPrefixOf (a :: (pre ++ rest))) = false := by
      simp only [List.isPrefixOf, hca, Bool.false_and]
    have ih2 := ih (fun hm => h (List.mem_cons_of_mem a hm))
    simp only [List.cons_append, findSub, List.append_eq, hpre, Bool.false_eq_true,
      if_false, ih2, Option.map_some', List.length_cons]

/-- Image-line match on an explicitly decomposed line: when the alt text
contains no `]` and the reference no `)`, the lazy regex captures exactly
the alt text and the reference, whatever follows the closing
parenthesis. -/
lemma matchImage_data {s : String} {A U S2 : List Char}
    (hdata : s.data = '!' :: '[' :: (A ++ (']' :: '(' :: (U ++ (')' :: S2)))))
    (hA : ']' ∉ A) (hU : ')' ∉ U) :
    matchImage s = some (⟨A⟩, ⟨U⟩) := by
  have h1 : ("![".data.isPrefixOf s.data) = true := by
    rw [hdata]
    simp [List.isPrefixOf]
  have h2 : findSub "](".data (A ++ (']' :: '(' :: (U ++ (')' :: S2)))) =
      some A.length :=
    findSub_boundary ']' ['('] A (']' :: '(' :: (U ++ (')' :: S2))) hA
      (by simp [List.isPrefixOf])
  have h3 : findSub ")".data (U ++ (')' :: S2)) = some U.length :=
    findSub_boundary ')' [] U (')' :: S2) hU (by simp [List.isPrefixOf])
  have hdrop2 : s.data.drop 2 = A ++ (']' :: '(' :: (U ++ (')' :: S2))) := by
    rw [hdata]
    rfl
  have hassoc : A ++ (']' :: '(' :: (U ++ (')' :: S2))) =
      (A ++ [']', '(']) ++ (U ++ (')' :: S2)) := by
    simp
  have hdropA : (A ++ (']' :: '(' :: (U ++ (')' :: S2)))).drop (A.length + 2) =
      U ++ (')' :: S2) := by
    rw [hassoc]
    have hlen : A.length + 2 = (A ++ [']', '(']).length := by simp
    rw [hlen, List.drop_left]
  have htakeA : (A ++ (']' :: '(' :: (U ++ (')' :: S2)))).take A.length = A :=
    List.take_left A _
  have htakeU : (U ++ (')' :: S2)).take U.length = U := List.take_left U _
  unfold matchImage
  rw [if_pos h1, hdrop2]
  simp only [h2, hdropA, h3, htakeA, htakeU]

/-- Claim C10: a line beginning with an image reference `![alt](ref)`
consumes only the alt text and the reference — whatever text follows the
closing parenthesis on the same line is dropped and influences neither
the emitted block nor the rest of the scan. -/
theorem c10_image_suffix_dropped (st : DocumentStyle)
    (r : String → Option ResolvedImage) (l : String) (ls : List String)
    (alt url suffix : String)
    (hline : (jsTrim l).data =
      '!' :: '[' :: (alt.data ++ (']' :: '(' :: (url.data ++ (')' :: suffix.data)))))
    (halt : ']' ∉ alt.data) (hurl : ')' ∉ url.data) :
    scanBlocks st r (l :: ls) =
      imageBlockOf alt (r url) :: scanBlocks st r ls := by
  have him : matchImage (jsTrim l) = some (alt, url) := by
    have := matchImage_data hline halt hurl
    exact this
  exact scanBlocks_cons_image st r l ls alt url him

/-- Witness for C10: the text after the closing parenthesis disappears from
the output. -/
theorem c10_witness :
    scanBlocks stdStyle (fun _ => none) ["![cat](u) tail ignored"] =
      imageBlockOf "cat" none :: scanBlocks stdStyle (fun _ => none) [] :=
  c10_image_suffix_dropped stdStyle (fun _ => none) "![cat](u) tail ignored" []
    "cat" "u" " tail ignored" (by decide) (by decide) (by decide)

/-- The sequence of image references handed to the resolver does not depend
on the resolver's answers: control flow after an image line is the same
whether the fetch succeeded or failed. -/
lemma scanT_trace_resolver_indep (st : DocumentStyle)
    (r1 r2 : String → Option ResolvedImage) :
    ∀ (n : Nat) (ls : List String),
      (scanT st r1 n ls).2 = (scanT st r2 n ls).2 := by
  intro n
  induction n with
  | zero => intro ls; cases ls <;> rfl
  | succ n ih =>
    intro ls
    cases ls with
    | nil => rfl
    | cons l t =>
      by_cases h1 : jsStartsWith "#" (jsTrim l) = true
      · simp [scanT, h1, ih]
      · rcases him : matchImage (jsTrim l) with _ | au
        · by_cases h2 : jsStartsWith "```" (jsTrim l) = true
          · simp [scanT, h1, him, h2, ih]
          · by_cases h3 : jsStartsWith "|" (jsTrim l) = true
            · simp [scanT, h1, him, h2, h3, ih]
            · by_cases h4 : jsTrim l = ""
              · have h4' : ¬(jsTrim l ≠ "") := fun hx => hx h4
                simp [scanT, h1, him, h2, h3, h4', ih]
              · simp [scanT, h1, him, h2, h3, h4, ih]
        · simp [scanT, h1, him, ih]

/-- Claim C6: within one conversion run the image resolutions are issued
strictly sequentially in document order by the single scanner recursion;
consequently the fetch schedule (which references are resolved, and in
what order) is a function of the input lines alone — it is identical for
any two resolvers — and with a fixed per-reference resolver result the
produced block list is a function of the input markup and style alone. -/
theorem c6_fetch_schedule_deterministic (st : DocumentStyle)
    (r1 r2 : String → Option ResolvedImage) :
    (∀ (n : Nat) (ls : List String),
      (scanT st r1 n ls).2 = (scanT st r2 n ls).2) ∧
    ((∀ u, r1 u = r2 u) →
      ∀ ls, scanBlocks st r1 ls = scanBlocks st r2 ls) := by
  refine ⟨scanT_trace_resolver_indep st r1 r2, ?_⟩
  intro h ls
  have : r1 = r2 := funext h
  rw [this]

/-- Witness for C6: a failing and a succeeding resolver produce the same
fetch schedule on an image line, and equal resolvers produce equal
block lists. -/
theorem c6_witness :
    (scanT stdStyle (fun _ => none) 1 ["![a](u)"]).2 =
      (scanT stdStyle (fun _ => some ⟨[], 10, 10⟩) 1 ["![a](u)"]).2 ∧
    scanBlocks stdStyle (fun _ => none) ["x"] =
      scanBlocks stdStyle (fun _ => none) ["x"] :=
  ⟨(c6_fetch_schedule_deterministic stdStyle (fun _ => none)
      (fun _ => some ⟨[], 10, 10⟩)).1 1 ["![a](u)"],
   (c6_fetch_schedule_deterministic stdStyle (fun _ => none)
      (fun _ => none)).2 (fun _ => rfl) ["x"]⟩

/-- A line without dollar signs passes through one math-extraction pass
unchanged, recording no placeholder. -/
lemma replaceMathF_no_dollar (isD : Bool) (n : Nat) :
    ∀ (k : Nat) (s : List Char), s.length ≤ n → (∀ c ∈ s, c ≠ '$') →
      replaceMathF isD n k s = (s, [], k) := by
  induction n with
  | zero =>
    intro k s hn h
    rw [List.length_eq_zero.mp (Nat.le_zero.mp hn)]
    rfl
  | succ n ih =>
    intro k s hn h
    cases s with
    | nil => rfl
    | cons c rest =>
      have hc : c ≠ '$' := h c (List.mem_cons_self c rest)
      have hdc : ('$' == c) = false := beq_eq_false_iff_ne.mpr (fun e => hc e.symm)
      have hpre : ((mathDelim isD).isPrefixOf (c :: rest)) = false := by
        cases isD <;> simp [mathDelim, List.isPrefixOf, hdc]
      have ih2 := ih k rest (by simpa using Nat.succ_le_succ_iff.mp (by simpa using hn))
        (fun x hx => h x (List.mem_cons_of_mem c hx))
      simp [replaceMathF, hpre, ih2]

/-- A line without dollar signs is unchanged by both math passes. -/
lemma mathPasses_no_dollar (s : List Char) (h : ∀ c ∈ s, c ≠ '$') :
    mathPasses s = (s, []) := by
  have h1 := replaceMathF_no_dollar true s.length 0 s le_rfl h
  have h2 := replaceMathF_no_dollar false s.length 0 s le_rfl h
  simp [mathPasses, h1, h2]

/-- No emphasis delimiter can open at a position whose character is not an
asterisk, underscore, or backtick. -/
lemma delimsAt_nil_of {c : Char} {rest : List Char}
    (h1 : c ≠ '*') (h2 : c ≠ '_') (h3 : c ≠ btChar) :
    delimsAt (c :: rest) = [] := by
  simp [delimsAt, h1, h2, h3]

/-- The emphasis regex finds no match in a line containing none of its
delimiter characters. -/
lemma emphFind_none (s : List Char)
    (h : ∀ c ∈ s, c ≠ '*' ∧ c ≠ '_' ∧ c ≠ btChar) :
    emphFind s = none := by
  induction s with
  | nil => rfl
  | cons c rest ih =>
    have hc := h c (List.mem_cons_self c rest)
    have hd : delimsAt (c :: rest) = [] := delimsAt_nil_of hc.1 hc.2.1 hc.2.2
    have ih2 := ih (fun x hx => h x (List.mem_cons_of_mem c hx))
    simp [emphFind, hd, tryDelims, ih2]

/-- Claim C9, counterexample: the empty line contains no delimiter
characters, yet tokenizing it returns no run at all rather than exactly
one run equal to the line. -/
theorem c9_empty_line_counterexample :
    parseInlineStyles "" "F" 12 "000000" = [] ∧
    ([] : List InlineRun) ≠
      [InlineRun.tr "" "F" (12 * 2) false false "000000" false] := by
  exact ⟨rfl, by simp⟩

/-- Claim C9, amended: for every non-empty line containing no emphasis
marker, backtick, or dollar sign, tokenization returns exactly one run
whose text is the original line, carrying no emphasis, no code styling,
and no math styling. -/
theorem c9_plain_line_single_run (s f : String) (sz : ℚ) (c : String)
    (hne : s.data ≠ [])
    (h : ∀ ch ∈ s.data, ch ≠ '*' ∧ ch ≠ '_' ∧ ch ≠ btChar ∧ ch ≠ '$') :
    parseInlineStyles s f sz c =
      [InlineRun.tr s f (sz * 2) false false c false] := by
  have hmp : mathPasses s.data = (s.data, []) :=
    mathPasses_no_dollar s.data (fun ch hc => (h ch hc).2.2.2)
  have hef : emphFind s.data = none :=
    emphFind_none s.data
      (fun ch hc => ⟨(h ch hc).1, (h ch hc).2.1, (h ch hc).2.2.1⟩)
  have hsegs : emphSegs s.data = [⟨s.data, none⟩] := by
    cases hs : s.data with
    | nil => exact absurd hs hne
    | cons c0 t =>
      rw [hs] at hef
      unfold emphSegs
      rw [List.length_cons]
      simp [emphSegsF, hef]
  simp [parseInlineStyles, hmp, hsegs, segToRuns]

/-- Witness for C9 on the delimiter-free line `"hello"`. -/
theorem c9_witness :
    parseInlineStyles "hello" "F" 12 "000000" =
      [InlineRun.tr "hello" "F" (12 * 2) false false "000000" false] :=
  c9_plain_line_single_run "hello" "F" 12 "000000" (by decide) (by decide)

